import Mathlib

/-!
# Verification of the `negotiator` HTTP content-negotiation library

Shallow embedding of the Go sources under `src/`:

* `src/accept/acceptheader.go` (package `accept`) — header parsing;
* `src/acceptheader.go` (package `header` part) — `MediaRange.StrongerThan`;
* `src/negotiate.go` (package `negotiator`) — the negotiation engine;
* `src/offer.go` — offers, wildcard defaults, lazy data providers.

Go strings are modelled as `List Char` (the sources operate on bytes of
ASCII header values); `float64` qualities are modelled as `ℚ` (exact on the
decimal literals that occur, order-compatible with the Go comparisons used:
`>`, `<`, `<= 0`).
-/

/-- Go `string`, modelled as a list of characters. -/
abbrev Str := List Char

/-- Embed a Lean string literal as a `Str`. -/
def str (s : String) : Str := s.toList

/-- The whitespace test of Go `strings.TrimSpace` (ASCII cases). -/
def isSpaceChar (c : Char) : Bool :=
  c == ' ' || c == '\t' || c == '\n' || c == '\x0b' || c == '\x0c' || c == '\r'

/-- Go `strings.TrimSpace` (ASCII whitespace). -/
def trimSpace (s : Str) : Str :=
  ((s.dropWhile isSpaceChar).reverse.dropWhile isSpaceChar).reverse

/-- Go `strings.Split(s, sep)` for a single-character separator:
splits at every occurrence, keeping empty pieces; `Split("", sep) = [""]`. -/
def splitOnChar (sep : Char) : Str → List Str
  | [] => [[]]
  | c :: cs =>
    match splitOnChar sep cs with
    | h :: t => if c == sep then [] :: h :: t else (c :: h) :: t
    | [] => [[c]]   -- unreachable: splitOnChar never returns []

/-- Source `split(value, b)` from src/accept/acceptheader.go:131-137 (and the identical
function in src/negotiate.go:269-275): split at the first occurrence of `b`;
when `b` is absent the second component is empty. -/
def splitPair (b : Char) (value : Str) : Str × Str :=
  match value.findIdx? (· == b) with
  | none => (value, [])
  | some i => (value.take i, value.drop (i + 1))

/-- Numeric value of a run of decimal digits. -/
def natOfDigits (ds : Str) : Nat :=
  ds.foldl (fun a c => a * 10 + (c.toNat - 48)) 0

/-- Optional exponent suffix of a decimal literal: empty, or `e`/`E`,
an optional sign and a non-empty run of digits consuming the rest.
The mantissa is passed as `num / 10 ^ denPow`; the result is assembled with
`mkRat`, which the kernel can evaluate (unlike field division on `ℚ`). -/
def parseExponent (num denPow : Nat) (s : Str) : Option ℚ :=
  match s with
  | [] => some (mkRat num (10 ^ denPow))
  | e :: rest =>
    if e == 'e' || e == 'E' then
      let (sign, ds) : Bool × Str :=
        match rest with
        | '+' :: t => (false, t)
        | '-' :: t => (true, t)
        | t => (false, t)
      if ds ≠ [] ∧ ds.all (·.isDigit) then
        some (if sign then mkRat num (10 ^ (denPow + natOfDigits ds))
              else mkRat (num * 10 ^ natOfDigits ds) (10 ^ denPow))
      else none
    else none

/-- Unsigned decimal part of Go `strconv.ParseFloat`:
`digits [. digits] [exp]` or `. digits [exp]`, at least one digit. -/
def parseUnsignedFloat (s : Str) : Option ℚ :=
  let ip := s.takeWhile (·.isDigit)
  let rest := s.dropWhile (·.isDigit)
  match rest with
  | '.' :: rest2 =>
    let fp := rest2.takeWhile (·.isDigit)
    let rest3 := rest2.dropWhile (·.isDigit)
    if ip = [] ∧ fp = [] then none
    else parseExponent (natOfDigits ip * 10 ^ fp.length + natOfDigits fp) fp.length rest3
  | _ =>
    if ip = [] then none else parseExponent (natOfDigits ip) 0 rest

/-- Go `strconv.ParseFloat(s, 64)` restricted to ordinary decimal literals
(the forms occurring in Accept headers); the exotic forms the claims never
exercise (`inf`, `nan`, hex floats, digit underscores) are out of scope and
modelled as parse failures.  Result is exact (`ℚ`), which agrees with the
order comparisons the sources make on parsed qualities. -/
def parseFloat (s : Str) : Option ℚ :=
  match s with
  | '+' :: t => parseUnsignedFloat t
  | '-' :: t => (parseUnsignedFloat t).map Neg.neg
  | t => parseUnsignedFloat t

/-- One step of Go `sort`'s `insertionSort`: the freshly appended element `x`
bubbles left past its predecessor `y` exactly while `less x y`.  The list
argument is the already-sorted prefix in REVERSED order (rightmost element
first), which is the order in which `x` meets the elements. -/
def bubbleInsertRev (less : α → α → Bool) (x : α) : List α → List α
  | [] => [x]
  | y :: ys => if less x y then y :: bubbleInsertRev less x ys else x :: y :: ys

/-- Go `sort.Stable` for slices of fewer than 20 elements (every list in this
development): `sort.Stable` runs plain `insertionSort` on such slices, which
processes elements left to right, bubbling each into the sorted prefix. -/
def insertionSortGo (less : α → α → Bool) (l : List α) : List α :=
  (l.foldl (fun accRev x => bubbleInsertRev less x accRev) []).reverse

/-! ## The `accept` package (src/accept/acceptheader.go, src/unnamed/part_003)
and the `header` package's `MediaRange.StrongerThan` (src/acceptheader.go,
package `header` section, lines 336-359). -/

/-- Source `KV` holds a parameter with a key and optional value. -/
structure KV where
  Key : Str
  Value : Str
deriving DecidableEq, Repr

/-- Source `PrecedenceValue` is a value and associated quality between 0.0 and 1.0. -/
structure PrecedenceValue where
  Value : Str
  Quality : ℚ
  Params : List KV
  Extensions : List KV
deriving DecidableEq, Repr

/-- Source `MediaRange` is a media range value and associated quality. -/
structure MediaRange where
  Type' : Str   -- `Type` in the Go source; `Type` is reserved in Lean
  Subtype : Str
  Quality : ℚ
  Params : List KV
  Extensions : List KV
deriving DecidableEq, Repr

/-- Source `DefaultQuality`: default weight of a media range without explicit `q`. -/
def DefaultQuality : ℚ := 1

/-- Source `parseQuality` (src/accept/acceptheader.go:116-122): invalid quality
literals silently fall back to 1.0. -/
def parseQuality (qstring : Str) : ℚ :=
  match parseFloat qstring with
  | some weight => weight
  | none => 1

/-- Source `handlePartWithParams` (src/accept/acceptheader.go:95-110): trim each
accept-param, split it at the first `=`; a trimmed key equal to `q` (exactly,
case-sensitively) sets the quality, any other param is appended to `Params`. -/
def handlePartWithParams (value : Str) (acceptParams : List Str) : PrecedenceValue :=
  acceptParams.foldl
    (fun wv ap0 =>
      let ap := trimSpace ap0
      let kv := splitPair '=' ap
      if trimSpace kv.1 == str "q" then { wv with Quality := parseQuality kv.2 }
      else { wv with Params := wv.Params ++ [⟨kv.1, kv.2⟩] })
    { Value := trimSpace value, Quality := DefaultQuality, Params := [], Extensions := [] }

/-- Source `handlePartWithoutParams` (src/accept/acceptheader.go:124-129). -/
def handlePartWithoutParams (value : Str) : PrecedenceValue :=
  { Value := trimSpace value, Quality := DefaultQuality, Params := [], Extensions := [] }

/-- Source `parseHeader` (src/accept/acceptheader.go:56-75): empty header yields nil;
otherwise split on `,` and handle each part, with or without `;` params. -/
def parseHeader (acceptHeader : Str) : List PrecedenceValue :=
  if acceptHeader = [] then []
  else
    (splitOnChar ',' acceptHeader).map (fun part =>
      match splitOnChar ';' part with
      | [v] => handlePartWithoutParams v
      | v :: ps => handlePartWithParams v ps
      | [] => handlePartWithoutParams [])   -- unreachable: splitOnChar never returns []

/-- Source `splitMediaRanges` (src/accept/acceptheader.go:77-93): split each value at
the first `/` into type and subtype. -/
def splitMediaRanges (wvs : List PrecedenceValue) : List MediaRange :=
  wvs.map (fun wv =>
    let ts := splitPair '/' wv.Value
    { Type' := ts.1, Subtype := ts.2, Quality := wv.Quality,
      Params := wv.Params, Extensions := [] })

/-- Source `MediaRange.StrongerThan` (src/acceptheader.go:336-359, package `header`;
textually identical to `mrByPrecedence.Less` in src/unnamed/part_003):
quality first, then concrete-type over wildcard-type, concrete-subtype over
wildcard-subtype, then more params on equal type/subtype. -/
def MediaRange.StrongerThan (mr other : MediaRange) : Bool :=
  if mr.Quality > other.Quality then true
  else if mr.Quality < other.Quality then false
  else if mr.Type' != str "*" && other.Type' == str "*" then true
  else if mr.Type' != str "*" && mr.Subtype != str "*" && other.Subtype == str "*" then true
  else if mr.Type' == other.Type' && mr.Subtype == other.Subtype then
    mr.Params.length > other.Params.length
  else false

/-- Source `wvByPrecedence.Less` (src/unnamed/part_003:25-36): quality descending,
ties broken by param count only between equal values. -/
def wvByPrecedenceLess (a b : PrecedenceValue) : Bool :=
  if a.Quality > b.Quality then true
  else if a.Quality < b.Quality then false
  else if a.Value == b.Value then a.Params.length > b.Params.length
  else false

/-- Source `ParseAcceptHeader` (src/accept/acceptheader.go:25-30): parse, split into
media ranges, and stable-sort by precedence, most preferred first. -/
def ParseAcceptHeader (acceptHeader : Str) : List MediaRange :=
  insertionSortGo MediaRange.StrongerThan (splitMediaRanges (parseHeader acceptHeader))

/-- Source `ParseAcceptLanguageHeader` (src/accept/acceptheader.go:34-38); this is the
model of `header.Parse` used by src/negotiate.go (the `header` package is the
same parser over the same `PrecedenceValue`s). -/
def ParseAcceptLanguageHeader (acceptHeader : Str) : List PrecedenceValue :=
  insertionSortGo wvByPrecedenceLess (parseHeader acceptHeader)

/-- Modelled from the spec: `MediaRanges.WithDefault` of the `header` package
is absent from src/; §4.3 of the spec requires that a wildcard default entry
of quality 1.0 be appended only when the header was absent (parsed to nil). -/
def MediaRangesWithDefault (mrs : List MediaRange) : List MediaRange :=
  if mrs.isEmpty then [{ Type' := str "*", Subtype := str "*", Quality := 1,
                         Params := [], Extensions := [] }]
  else mrs

/-- Modelled from the spec: `PrecedenceValues.WithDefault` of the `header`
package is absent from src/; §4.3 of the spec requires a wildcard entry of
quality 1.0 to be appended only when the header was absent. -/
def PrecedenceValuesWithDefault (pvs : List PrecedenceValue) : List PrecedenceValue :=
  if pvs.isEmpty then [{ Value := str "*", Quality := 1, Params := [], Extensions := [] }]
  else pvs

/-! ## Offers and lazy data providers (src/offer.go) -/

/-- The `Data` field of an `Offer`: Go `interface{}` restricted to the shapes
the negotiator inspects — `nil`, an opaque payload (modelled as a string), a
`BasicDataProvider` (`func() interface{}`) or a `LanguageDataProvider`
(`func(language string) interface{}`).  The inductive model makes every
provider chain well-founded; a Go closure that returns itself has no
counterpart here (see the depth results below). -/
inductive GoData where
  | plain : Option String → GoData
  | basic : (Unit → GoData) → GoData
  | langFn : (Str → GoData) → GoData

/-- Whether a value is still a provider (would be invoked again by the
dereferencing loop). -/
def GoData.isProvider : GoData → Bool
  | .plain _ => false
  | .basic _ => true
  | .langFn _ => true

/-- Whether a resolved value is Go `nil`. -/
def GoData.isNil : GoData → Bool
  | .plain none => true
  | _ => false

/-- The payload of a fully resolved non-nil value, if any. -/
def GoData.plainValue : GoData → Option String
  | .plain v => v
  | _ => none

/-- Source `dereferenceDataProviders` (src/offer.go:72-83): invoke providers
repeatedly until a non-provider value results.  The Go loop has no depth cap;
in this well-founded model the recursion is structural. -/
def dereferenceDataProviders : GoData → Str → GoData
  | .plain v, _ => .plain v
  | .basic f, lang => dereferenceDataProviders (f ()) lang
  | .langFn f, lang => dereferenceDataProviders (f lang) lang

/-- Number of provider invocations `dereferenceDataProviders` performs, i.e.
the number of iterations of the Go `for` loop before it returns. -/
def derefDepth : GoData → Str → Nat
  | .plain _, _ => 0
  | .basic f, lang => derefDepth (f ()) lang + 1
  | .langFn f, lang => derefDepth (f lang) lang + 1

/-- A chain of `n` nested `BasicDataProvider`s ending in a plain value. -/
def providerChain : Nat → GoData
  | 0 => .plain (some "x")
  | n + 1 => .basic (fun _ => providerChain n)

/-- Source `Offer` (src/offer.go:28-33). -/
structure Offer where
  MediaType : Str
  Language : Str
  Template : Str
  Data : GoData

/-- The per-offer normalisation step of `Offers.doSetDefaultWildcards`
(src/offer.go:58-70): blank media type becomes `*/*`, blank language `*`. -/
def fixOfferWildcards (o : Offer) : Offer :=
  { o with
    MediaType := if o.MediaType == [] then str "*/*" else o.MediaType
    Language := if o.Language == [] then str "*" else o.Language }

/-- Source `Offers.doSetDefaultWildcards` (src/offer.go:58-70): a fresh slice of
copies with blank fields replaced. -/
def doSetDefaultWildcards (offers : List Offer) : List Offer :=
  offers.map fixOfferWildcards

/-- Source `Offers.setDefaultWildcards` (src/offer.go:47-56): if any offer has a
blank media type or language, rebuild the whole slice, otherwise return the
input unchanged. -/
def setDefaultWildcards (offers : List Offer) : List Offer :=
  if offers.any (fun o => o.MediaType == [] || o.Language == []) then
    doSetDefaultWildcards offers
  else offers

/-! ## The negotiation engine (src/negotiate.go) -/

/-- A registered response processor, reduced to the interface the engine
consults (`CanProcess`, `ContentType`); the serialisation action is external
to the core per the spec. -/
structure ResponseProcessor where
  canProcess : Str → Str → Bool
  contentType : Str

/-- Source `Negotiator` (src/negotiate.go:25-28); the error handler does not affect
which outcome is chosen, so only the processor list is modelled. -/
structure Negotiator where
  processors : List ResponseProcessor

/-- The request header values the engine reads. -/
structure Request where
  accept : Str
  acceptLanguage : Str
  xRequestedWith : Str

/-- Source `IsAjax` (src/negotiate.go:264-267). -/
def IsAjax (req : Request) : Bool :=
  req.xRequestedWith == str "XMLHttpRequest"

/-- Source `equalOrPrefix` (src/negotiate.go:202-207); named `equalOrPrefixMatch`
here.  The accepted language matches the offered one when either is `*`, they
are equal, or the ACCEPTED tag extends the OFFERED tag by a hyphenated
suffix (`strings.HasPrefix(acceptedLang, offeredLang+"-")`). -/
def equalOrPrefixMatch (acceptedLang offeredLang : Str) : Bool :=
  acceptedLang == str "*" ||
  offeredLang == str "*" ||
  acceptedLang == offeredLang ||
  (offeredLang ++ ['-']).isPrefixOf acceptedLang

/-- Source `equalOrWildcard` (src/negotiate.go:209-211). -/
def equalOrWildcard (accepted offered : Str) : Bool :=
  offered == str "*" || accepted == str "*" || accepted == offered

/-- Source `exactMatch` (src/negotiate.go:188-193). -/
def exactMatch (accepted : MediaRange) (lang : PrecedenceValue) (offer : Offer) : Bool :=
  let ts := splitPair '/' offer.MediaType
  accepted.Type' == ts.1 && accepted.Subtype == ts.2 &&
    equalOrPrefixMatch lang.Value offer.Language

/-- Source `nearMatch` (src/negotiate.go:195-200). -/
def nearMatch (accepted : MediaRange) (lang : PrecedenceValue) (offer : Offer) : Bool :=
  let ts := splitPair '/' offer.MediaType
  equalOrWildcard accepted.Type' ts.1 && equalOrWildcard accepted.Subtype ts.2 &&
    equalOrPrefixMatch lang.Value offer.Language

/-- The per-offer exclusion condition of `removeExcludedOffers`
(src/negotiate.go:165-176): some accepted media range has quality `<= 0` and
exactly the offer's type and subtype. -/
def offerExcluded (mrs : List MediaRange) (offer : Offer) : Bool :=
  mrs.any (fun accepted =>
    decide (accepted.Quality ≤ 0) &&
      accepted.Type' == (splitPair '/' offer.MediaType).1 &&
      accepted.Subtype == (splitPair '/' offer.MediaType).2)

/-- Source `removeExcludedOffers` (src/negotiate.go:163-186): drop every offer whose
exact type and subtype match an accepted media range of quality `<= 0`. -/
def removeExcludedOffers (offers : List Offer) (mrs : List MediaRange) : List Offer :=
  offers.filter (fun offer => !offerExcluded mrs offer)

/-- Source `Negotiator.findBestMatch` (src/negotiate.go:132-160): scan accepted media
ranges (outer) × accepted languages (inner) in ranked order; on the first
`match` with positive language quality, a `*/*` offer takes the first
processor (`n.processors[0]`, modelled by `head?`; the callers guarantee the
list is non-empty), otherwise the first processor whose `CanProcess` accepts
the offer; when no processor fits, the scan continues. -/
def findBestMatch (n : Negotiator) (mrs : List MediaRange)
    (languages : List PrecedenceValue) (offer : Offer)
    (mtch : MediaRange → PrecedenceValue → Offer → Bool) : Option ResponseProcessor :=
  mrs.findSome? (fun accepted =>
    languages.findSome? (fun lang =>
      if mtch accepted lang offer then
        if lang.Quality > 0 then
          if offer.MediaType == str "*/*" then n.processors.head?
          else n.processors.find? (fun p => p.canProcess offer.MediaType offer.Language)
        else none
      else none))

/-- One of the two offer-scanning passes of `Negotiator.Render`
(src/negotiate.go:112-126): the first offer for which `findBestMatch`
produces a processor wins. -/
def searchPass (n : Negotiator) (mrs : List MediaRange)
    (languages : List PrecedenceValue)
    (mtch : MediaRange → PrecedenceValue → Offer → Bool)
    (offers : List Offer) : Option (ResponseProcessor × Offer) :=
  offers.findSome? (fun offer =>
    (findBestMatch n mrs languages offer mtch).map (fun p => (p, offer)))

/-- Outcome of the choice phase of `Negotiator.Render`, before the chosen
offer's data is resolved:  the Ajax path's immediate JSON renderer, a chosen
(processor, offer) pair, or the `unacceptable{}` result (406) — the latter
also covers the no-processors case, which returns the same value in Go. -/
inductive Choice where
  | ajaxChosen : Offer → Choice
  | chosen : ResponseProcessor → Offer → Choice
  | unacceptable : Choice

/-- The post-parsing negotiation of `Negotiator.Render`
(src/negotiate.go:108-129): exclusion pass, exact-match pass, near-match
pass, otherwise 406. -/
def negotiateOffers (n : Negotiator) (mrs : List MediaRange)
    (languages : List PrecedenceValue) (offers : List Offer) : Choice :=
  let remaining := removeExcludedOffers offers mrs
  match searchPass n mrs languages exactMatch remaining with
  | some po => .chosen po.1 po.2
  | none =>
    match searchPass n mrs languages nearMatch remaining with
    | some po => .chosen po.1 po.2
    | none => .unacceptable

/-- Source `Negotiator.ajaxNegotiate` (src/negotiate.go:248-262): the first offer
with a JSON-compatible media type wins unconditionally; it never consults the
processor list. -/
def ajaxNegotiate (offers : List Offer) : Choice :=
  match offers.find? (fun offer =>
      offer.MediaType == str "*/*" || offer.MediaType == str "application/*" ||
        offer.MediaType == str "application/json") with
  | some offer => .ajaxChosen offer
  | none => .unacceptable

/-- The choice phase of `Negotiator.Render` (src/negotiate.go:93-130):
normalise blank offer fields, branch to the Ajax path, parse both headers,
treat an empty processor list as 406, then run the matching passes. -/
def renderChoice (n : Negotiator) (req : Request) (offers : List Offer) : Choice :=
  let offers := setDefaultWildcards offers
  if IsAjax req then ajaxNegotiate offers
  else
    let mrs := MediaRangesWithDefault (ParseAcceptHeader req.accept)
    let languages := PrecedenceValuesWithDefault (ParseAcceptLanguageHeader req.acceptLanguage)
    if n.processors.isEmpty then .unacceptable
    else negotiateOffers n mrs languages offers

/-- The `CodedRender` values `Negotiator.Render` produces (src/render.go):
a renderer (status 200), the `unacceptable{}` value (status 406), or an
`emptyCode` (the 204 produced by `process` for nil data). -/
inductive CodedRender where
  | renderer : GoData → Str → Str → Str → CodedRender  -- data, language, template, contentType
  | unacceptable : CodedRender
  | emptyCode : Nat → CodedRender

/-- Source `StatusCode()` of each `CodedRender` implementation (src/render.go). -/
def CodedRender.statusCode : CodedRender → Nat
  | .renderer _ _ _ _ => 200
  | .unacceptable => 406
  | .emptyCode c => c

/-- Source `process` (src/negotiate.go:215-228) together with the renderer built by
`ajaxNegotiate`: resolve the chosen offer's data; in the non-Ajax path nil
data yields `emptyCode(204)`. -/
def finalize : Choice → CodedRender
  | .ajaxChosen offer =>
    CodedRender.renderer (dereferenceDataProviders offer.Data offer.Language)
      offer.Language [] (str "application/json; charset=utf-8")
  | .chosen p offer =>
    let data := dereferenceDataProviders offer.Data offer.Language
    if data.isNil then .emptyCode 204
    else CodedRender.renderer data offer.Language offer.Template p.contentType
  | .unacceptable => .unacceptable

/-- Source `Negotiator.Render` (src/negotiate.go:93-130). -/
def Render (n : Negotiator) (req : Request) (offers : List Offer) : CodedRender :=
  finalize (renderChoice n req offers)

/-- The payload carried by a successful renderer, if plain. -/
def CodedRender.payload : CodedRender → Option String
  | .renderer d _ _ _ => d.plainValue
  | _ => none

/-- The `Content-Language` a renderer would write. -/
def CodedRender.languageOf : CodedRender → Option Str
  | .renderer _ lang _ _ => some lang
  | _ => none

/-- The content type a renderer would write. -/
def CodedRender.contentTypeOf : CodedRender → Option Str
  | .renderer _ _ _ ct => some ct
  | _ => none

/-- Whether a choice is the 406 outcome. -/
def Choice.isUnacceptable : Choice → Bool
  | .unacceptable => true
  | _ => false

/-- The plain payload of the offer selected by a choice, if any. -/
def Choice.payload : Choice → Option String
  | .ajaxChosen o => o.Data.plainValue
  | .chosen _ o => o.Data.plainValue
  | .unacceptable => none

/-! ## The legacy parser `Accept.Parse` (src/acceptheader.go, package
`negotiator` section, lines 1-108); only the accept-param handling is needed
here, for comparison with the `accept` package on the `Q=` key. -/

namespace legacy

/-- Source `ParameteredMediaRangeWeight` (src/acceptheader.go:11). -/
def ParameteredMediaRangeWeight : ℚ := 1

/-- Source `WeightedValue` of the legacy parser. -/
structure WeightedValue where
  Value : Str
  Weight : ℚ
deriving DecidableEq, Repr

/-- Go `strings.ToLower` (ASCII). -/
def toLowerStr (s : Str) : Str := s.map Char.toLower

/-- Go `strings.Contains(s, sub)`: `sub` occurs somewhere in `s`. -/
def containsSub (sub : Str) : Str → Bool
  | [] => sub.isEmpty
  | c :: cs => sub.isPrefixOf (c :: cs) || containsSub sub cs

/-- Source `isQualityAcceptParam` (src/acceptheader.go:72-74):
`strings.Contains(acceptParam, "q=")`. -/
def isQualityAcceptParam (acceptParam : Str) : Bool :=
  containsSub (str "q=") acceptParam

/-- Go `strings.SplitAfter(s, "q=")`: pieces each ending with `q=` except the
last. -/
def splitAfterQEq : Str → List Str
  | 'q' :: '=' :: rest => ['q', '='] :: splitAfterQEq rest
  | c :: cs =>
    match splitAfterQEq cs with
    | h :: t => (c :: h) :: t
    | [] => [[c]]   -- unreachable: splitAfterQEq never returns []
  | [] => [[]]

/-- Source `parseQuality` (src/acceptheader.go:76-82):
`strconv.ParseFloat(strings.SplitAfter(acceptParam, "q=")[1], 64)`, falling
back to 1.0 on error.  The `[1]` index is guarded by `isQualityAcceptParam`
at the call site; the final catch-all arm is unreachable there. -/
def parseQuality (acceptParam : Str) : ℚ :=
  match splitAfterQEq acceptParam with
  | _ :: second :: _ =>
    match parseFloat second with
    | some weight => weight
    | none => 1
  | _ => 1

/-- Source `handleMediaRangeWithAcceptParams` (src/acceptheader.go:55-70): each
accept-param is lower-cased before the quality test, so `Q=` is treated as
`q=`; non-quality params are re-joined onto the value with `;` in their
original case. -/
def handleMediaRangeWithAcceptParams (mediaRange : Str) (acceptParams : List Str) :
    WeightedValue :=
  acceptParams.foldl
    (fun wv apOrig =>
      let ap := toLowerStr apOrig
      if isQualityAcceptParam ap then { wv with Weight := parseQuality ap }
      else { wv with Value := wv.Value ++ [';'] ++ apOrig })
    { Value := trimSpace mediaRange, Weight := ParameteredMediaRangeWeight }

end legacy

def fakeProcessorHtml : ResponseProcessor :=
  { canProcess := fun mt lang => mt == str "text/html" && (lang == str "*" || lang == str "en")
    contentType := str "text/html" }

def fakeProcessorTest : ResponseProcessor :=
  { canProcess := fun mt lang => mt == str "text/test" && (lang == str "*" || lang == str "en")
    contentType := str "text/test" }

def reqC2 : Request :=
  { accept := str "text/test, text/*", acceptLanguage := str "en-GB, fr-FR",
    xRequestedWith := [] }

def offersC2 : List Offer :=
  [{ MediaType := str "text/html", Language := str "en", Template := [],
     Data := .plain (some "d1") },
   { MediaType := str "text/test", Language := str "de", Template := [],
     Data := .plain (some "d2") },
   { MediaType := str "text/test", Language := str "en", Template := [],
     Data := .plain (some "d3") }]

-- C4 scenario
def mrHtml : MediaRange :=
  { Type' := str "text", Subtype := str "html", Quality := 1, Params := [], Extensions := [] }
def pvEn1 : PrecedenceValue := { Value := str "en", Quality := 1, Params := [], Extensions := [] }
def pvDe0 : PrecedenceValue := { Value := str "de", Quality := 0, Params := [], Extensions := [] }
def offerDe : Offer :=
  { MediaType := str "text/html", Language := str "de", Template := [], Data := .plain (some "d1") }
def offerEn : Offer :=
  { MediaType := str "text/html", Language := str "en", Template := [], Data := .plain (some "d2") }

-- C5

-- C6 counterexample scenario: ajax, no processors, JSON-compatible offer
def reqAjax : Request := { accept := [], acceptLanguage := [], xRequestedWith := str "XMLHttpRequest" }
def offerJson : Offer :=
  { MediaType := str "application/json", Language := str "en", Template := [],
    Data := .plain (some "d") }

-- C8

/-! ## Concrete scenario constants used by the claim theorems -/
def pvEnGB : PrecedenceValue :=
  { Value := str "en-GB", Quality := 1, Params := [], Extensions := [] }

def mrTextTest : MediaRange :=
  { Type' := str "text", Subtype := str "test", Quality := 1, Params := [], Extensions := [] }

def offerD3 : Offer :=
  { MediaType := str "text/test", Language := str "en", Template := [],
    Data := .plain (some "d3") }

def offerEnGB : Offer :=
  { MediaType := str "text/html", Language := str "en-GB", Template := [],
    Data := .plain (some "x") }

def offerBlank : Offer :=
  { MediaType := [], Language := [], Template := [], Data := .plain none }

def mrTestQ0 : MediaRange :=
  { Type' := str "text", Subtype := str "test", Quality := 0, Params := [], Extensions := [] }

def mrStarPos : MediaRange :=
  { Type' := str "*", Subtype := str "*", Quality := 1, Params := [], Extensions := [] }

def offerTest : Offer :=
  { MediaType := str "text/test", Language := str "en", Template := [],
    Data := .plain (some "foo") }

/-! ## Helper lemmas -/

theorem findSome?_eq_some_mem {α β} {f : α → Option β} {b : β} :
    ∀ {l : List α}, l.findSome? f = some b → ∃ a, a ∈ l ∧ f a = some b
  | [], h => by simp [List.findSome?] at h
  | a :: t, h => by
    rw [List.findSome?_cons] at h
    cases hfa : f a with
    | some v =>
      rw [hfa] at h
      exact ⟨a, List.mem_cons_self a t, by rw [hfa]; exact h⟩
    | none =>
      rw [hfa] at h
      obtain ⟨x, hx, hfx⟩ := findSome?_eq_some_mem h
      exact ⟨x, List.mem_cons_of_mem a hx, hfx⟩

theorem searchPass_mem {n : Negotiator} {mrs : List MediaRange}
    {languages : List PrecedenceValue} {mtch : MediaRange → PrecedenceValue → Offer → Bool}
    {offers : List Offer} {p : ResponseProcessor} {o : Offer}
    (h : searchPass n mrs languages mtch offers = some (p, o)) : o ∈ offers := by
  unfold searchPass at h
  obtain ⟨a, ha, hfa⟩ := findSome?_eq_some_mem h
  cases hfb : findBestMatch n mrs languages a mtch with
  | none => rw [hfb] at hfa; simp at hfa
  | some q =>
    rw [hfb] at hfa
    simp only [Option.map_some'] at hfa
    cases hfa
    exact ha

theorem map_id_of_mem {α} {l : List α} {f : α → α} (h : ∀ x ∈ l, f x = x) :
    l.map f = l := by
  induction l with
  | nil => rfl
  | cons a t ih => simp only [List.map_cons, h a (List.mem_cons_self a t),
      ih (fun x hx => h x (List.mem_cons_of_mem a hx))]

theorem derefDepth_providerChain : ∀ (n : Nat) (lang : Str),
    derefDepth (providerChain n) lang = n
  | 0, _ => rfl
  | n + 1, lang => by
    simp only [providerChain, derefDepth, derefDepth_providerChain n lang]


/-- C1: parsing the Accept header `"text/*, text/html, text/html;level=1, */*"`
(no explicit q on any entry) yields the ranked list
`[text/html;level=1, text/html, text/*, */*]`, most preferred first: at equal
quality a concrete type outranks a wildcard type, a concrete subtype outranks
a wildcard subtype, and among equal type/subtype the entry with more
accept-params ranks first, under the stable sort. -/
theorem C1_stable_precedence_sort :
    ParseAcceptHeader (str "text/*, text/html, text/html;level=1, */*") =
      [{ Type' := str "text", Subtype := str "html", Quality := 1,
         Params := [⟨str "level", str "1"⟩], Extensions := [] },
       { Type' := str "text", Subtype := str "html", Quality := 1,
         Params := [], Extensions := [] },
       { Type' := str "text", Subtype := str "*", Quality := 1,
         Params := [], Extensions := [] },
       { Type' := str "*", Subtype := str "*", Quality := 1,
         Params := [], Extensions := [] }] := by decide

/-- C2: for the offers d1 `(text/html, en)`, d2 `(text/test, de)`,
d3 `(text/test, en)` with `Accept: text/test, text/*` and
`Accept-Language: en-GB, fr-FR`, negotiation selects the third offer d3
(status 200, content type of the matching processor), via the exact media
match `text/test` and the prefix match of accepted `en-GB` against offered
`en`. -/
theorem C2_end_to_end :
    (renderChoice ⟨[fakeProcessorHtml, fakeProcessorTest]⟩ reqC2 offersC2).payload
        = some "d3" ∧
    (Render ⟨[fakeProcessorHtml, fakeProcessorTest]⟩ reqC2 offersC2).statusCode = 200 ∧
    (Render ⟨[fakeProcessorHtml, fakeProcessorTest]⟩ reqC2 offersC2).payload = some "d3" ∧
    (Render ⟨[fakeProcessorHtml, fakeProcessorTest]⟩ reqC2 offersC2).contentTypeOf
        = some (str "text/test") ∧
    exactMatch mrTextTest pvEnGB offerD3 = true ∧
    equalOrPrefixMatch (str "en-GB") (str "en") = true :=
  ⟨by decide, by decide, by decide, by decide, by decide, by decide⟩

/-- C3: for every list of offers and every parsed Accept header, an offer
whose (type, subtype) exactly equals that of an accepted media range with
quality 0 is removed by the exclusion pass before any matching pass, and the
matching passes never select it — whatever other accepted entries (such as
positive-quality wildcards) exist. -/
theorem C3_exclusion_is_terminal
    (offers : List Offer) (mrs : List MediaRange) (n : Negotiator)
    (languages : List PrecedenceValue) (o : Offer)
    (ho : o ∈ offers)
    (hex : ∃ mr, mr ∈ mrs ∧ mr.Quality = 0 ∧
      mr.Type' = (splitPair '/' o.MediaType).1 ∧
      mr.Subtype = (splitPair '/' o.MediaType).2) :
    o ∉ removeExcludedOffers offers mrs ∧
    ∀ p o', negotiateOffers n mrs languages offers = .chosen p o' → o' ≠ o := by
  obtain ⟨mr, hmr, hq, ht, hs⟩ := hex
  have hexcl : offerExcluded mrs o = true := by
    unfold offerExcluded
    refine List.any_eq_true.mpr ⟨mr, hmr, ?_⟩
    simp [hq, ht, hs]
  have hnot : o ∉ removeExcludedOffers offers mrs := by
    intro hmem
    unfold removeExcludedOffers at hmem
    rw [List.mem_filter, hexcl] at hmem
    simp at hmem
  refine ⟨hnot, ?_⟩
  intro p o' hchosen heq
  subst heq
  simp only [negotiateOffers] at hchosen
  cases hs1 : searchPass n mrs languages exactMatch (removeExcludedOffers offers mrs) with
  | some po =>
    rw [hs1] at hchosen
    injection hchosen with h1 h2
    exact hnot (h2 ▸ searchPass_mem hs1)
  | none =>
    rw [hs1] at hchosen
    cases hs2 : searchPass n mrs languages nearMatch (removeExcludedOffers offers mrs) with
    | some po =>
      rw [hs2] at hchosen
      injection hchosen with h1 h2
      exact hnot (h2 ▸ searchPass_mem hs2)
    | none =>
      rw [hs2] at hchosen
      exact Choice.noConfusion hchosen

/-- C3 witness: the scenario of the test
`Test_should_return_406_when_media_range_is_explicitly_excluded` — the header
`text/test;q=0, */*` excludes the `text/test` offer despite the
positive-quality `*/*` entry. -/
theorem C3_exclusion_is_terminal_witness :
    offerTest ∉ removeExcludedOffers [offerTest] [mrTestQ0, mrStarPos] ∧
    ∀ p o', negotiateOffers ⟨[fakeProcessorTest]⟩ [mrTestQ0, mrStarPos] [pvEn1] [offerTest]
      = .chosen p o' → o' ≠ offerTest :=
  C3_exclusion_is_terminal [offerTest] [mrTestQ0, mrStarPos] ⟨[fakeProcessorTest]⟩
    [pvEn1] offerTest (List.mem_singleton.mpr rfl)
    ⟨mrTestQ0, List.mem_cons_self mrTestQ0 [mrStarPos], by decide, by decide, by decide⟩

/-- C4 counterexample: with `Accept: text/html`, `Accept-Language: en, de;q=0`
(ranked `[en(1), de(0)]`) and offers `[(text/html,de), (text/html,en)]`, the
pair (`text/html`, `de;q=0`, first offer) is an otherwise-matching pair with
zero language quality, yet negotiation does NOT stop with Not Acceptable: it
continues and selects the second offer (payload d2). -/
theorem C4_counterexample :
    exactMatch mrHtml pvDe0 offerDe = true ∧
    pvDe0.Quality = 0 ∧
    (negotiateOffers ⟨[fakeProcessorHtml]⟩ [mrHtml] [pvEn1, pvDe0]
        [offerDe, offerEn]).isUnacceptable = false ∧
    (negotiateOffers ⟨[fakeProcessorHtml]⟩ [mrHtml] [pvEn1, pvDe0]
        [offerDe, offerEn]).payload = some "d2" :=
  ⟨by decide, by decide, by decide, by decide⟩

/-- C4 (amended): in the matching passes a pair wins only when the language
quality is positive (the media range's own quality is not consulted there;
offers exactly matching a quality-0 media range were removed beforehand), and
an otherwise-matching pair with zero language quality is merely skipped — the
search continues and may select a later offer, as in the concrete scenario
above, instead of returning Not Acceptable immediately. -/
theorem C4_zero_quality_pair_skipped :
    (∀ (n : Negotiator) (mrs : List MediaRange) (languages : List PrecedenceValue)
       (offer : Offer) (mtch : MediaRange → PrecedenceValue → Offer → Bool)
       (p : ResponseProcessor),
       findBestMatch n mrs languages offer mtch = some p →
       ∃ mr lang, mr ∈ mrs ∧ lang ∈ languages ∧ mtch mr lang offer = true ∧
         lang.Quality > 0) ∧
    (negotiateOffers ⟨[fakeProcessorHtml]⟩ [mrHtml] [pvEn1, pvDe0]
        [offerDe, offerEn]).payload = some "d2" := by
  constructor
  · intro n mrs languages offer mtch p h
    unfold findBestMatch at h
    obtain ⟨mr, hmr, h2⟩ := findSome?_eq_some_mem h
    obtain ⟨lang, hlang, h3⟩ := findSome?_eq_some_mem h2
    by_cases hm : mtch mr lang offer = true
    · rw [if_pos hm] at h3
      by_cases hq : lang.Quality > 0
      · exact ⟨mr, lang, hmr, hlang, hm, hq⟩
      · rw [if_neg hq] at h3
        exact Option.noConfusion h3
    · rw [if_neg hm] at h3
      exact Option.noConfusion h3
  · decide

/-- C4 witness: the positive-language-quality condition instantiated at the
concrete exact-match of the d3 offer. -/
theorem C4_zero_quality_pair_skipped_witness :
    ∃ mr lang, mr ∈ [mrTextTest] ∧ lang ∈ [pvEnGB] ∧
      exactMatch mr lang offerD3 = true ∧ lang.Quality > 0 :=
  C4_zero_quality_pair_skipped.1 ⟨[fakeProcessorTest]⟩ [mrTextTest] [pvEnGB]
    offerD3 exactMatch fakeProcessorTest rfl

/-- C5 counterexample: an accepted language tag `en` does NOT match an offered
language `en-GB` — `equalOrPrefix` tests whether the ACCEPTED tag extends the
OFFERED tag, so the claim's example fails both in isolation and inside the
exact and wildcard passes (an otherwise perfectly matching media type). -/
theorem C5_counterexample :
    equalOrPrefixMatch (str "en") (str "en-GB") = false ∧
    exactMatch mrHtml pvEn1 offerEnGB = false ∧
    nearMatch mrHtml pvEn1 offerEnGB = false :=
  ⟨by decide, by decide, by decide⟩

/-- C5 (amended): language matching in both the exact and wildcard passes is
exact-or-prefix in the accepted-extends-offered direction: both passes accept
a pair only if `equalOrPrefix` does, an accepted `en-GB` matches an offered
`en`, and (conversely to the claim's example) an accepted `en` does not match
an offered `en-GB`. -/
theorem C5_language_match_direction :
    (∀ (accepted : MediaRange) (lang : PrecedenceValue) (offer : Offer),
       exactMatch accepted lang offer = true →
       equalOrPrefixMatch lang.Value offer.Language = true) ∧
    (∀ (accepted : MediaRange) (lang : PrecedenceValue) (offer : Offer),
       nearMatch accepted lang offer = true →
       equalOrPrefixMatch lang.Value offer.Language = true) ∧
    equalOrPrefixMatch (str "en-GB") (str "en") = true ∧
    equalOrPrefixMatch (str "en") (str "en-GB") = false := by
  refine ⟨?_, ?_, by decide, by decide⟩
  · intro accepted lang offer h
    unfold exactMatch at h
    simp only [Bool.and_eq_true] at h
    exact h.2
  · intro accepted lang offer h
    unfold nearMatch at h
    simp only [Bool.and_eq_true] at h
    exact h.2

/-- C5 witness: both implications instantiated at the exact-match of the d3
offer by accepted `en-GB`. -/
theorem C5_language_match_direction_witness :
    equalOrPrefixMatch pvEnGB.Value offerD3.Language = true :=
  C5_language_match_direction.1 mrTextTest pvEnGB offerD3 (by decide)

/-- C6 counterexample: an Ajax-flagged request negotiated with NO processors
registered is not answered with 406 when an offer has a JSON-compatible media
type — the Ajax path bypasses the empty-processor check and returns a JSON
renderer with status 200. -/
theorem C6_counterexample :
    IsAjax reqAjax = true ∧
    (Render ⟨[]⟩ reqAjax [offerJson]).statusCode = 200 ∧
    (Render ⟨[]⟩ reqAjax [offerJson]).statusCode ≠ 406 :=
  ⟨by decide, by decide, by decide⟩

/-- C6 (amended): for every NON-Ajax request and every list of offers, a
negotiator with no response processors registered yields the `unacceptable`
result, whose status code is 406 (and, this being a total function, no panic
occurs); an Ajax-flagged request instead bypasses the processors check. -/
theorem C6_no_processors_not_acceptable (req : Request) (offers : List Offer)
    (h : IsAjax req = false) :
    Render ⟨[]⟩ req offers = CodedRender.unacceptable ∧
    (Render ⟨[]⟩ req offers).statusCode = 406 := by
  have hc : renderChoice ⟨[]⟩ req offers = Choice.unacceptable := by
    unfold renderChoice
    rw [h]
    simp [List.isEmpty]
  refine ⟨?_, ?_⟩ <;> rw [Render, hc] <;> rfl

/-- C6 witness: the no-processor 406 at the concrete non-Ajax request of the
end-to-end scenario. -/
theorem C6_no_processors_not_acceptable_witness :
    Render ⟨[]⟩ reqC2 offersC2 = CodedRender.unacceptable ∧
    (Render ⟨[]⟩ reqC2 offersC2).statusCode = 406 :=
  C6_no_processors_not_acceptable reqC2 offersC2 (by decide)

/-- C7: a header part whose quality accept-param carries an invalid literal
(any string whose float parse fails, e.g. `q=blah`) is neither rejected nor
discarded: the part still parses, with its `Value` kept (trimmed) and its
quality falling back to 1.0; moreover `parseHeader` always produces exactly
one entry per comma-separated part, so no part is ever dropped. -/
theorem C7_invalid_quality_falls_back
    (value ap : Str)
    (hk : trimSpace (splitPair '=' (trimSpace ap)).1 = str "q")
    (hv : parseFloat (splitPair '=' (trimSpace ap)).2 = none) :
    handlePartWithParams value [ap] =
      { Value := trimSpace value, Quality := 1, Params := [], Extensions := [] } ∧
    ∀ h : Str, h ≠ [] → (parseHeader h).length = (splitOnChar ',' h).length := by
  constructor
  · have hq : parseQuality (splitPair '=' (trimSpace ap)).2 = 1 := by
      unfold parseQuality
      rw [hv]
    simp [handlePartWithParams, hk, hq, DefaultQuality]
  · intro h hne
    unfold parseHeader
    rw [if_neg hne]
    simp

/-- C7 witness: the literal `q=blah` of the source's own test
`TestMediaRanges_should_ignore_invalid_quality`. -/
theorem C7_invalid_quality_falls_back_witness :
    handlePartWithParams (str "text/html") [str "q=blah"] =
      { Value := trimSpace (str "text/html"), Quality := 1,
        Params := [], Extensions := [] } :=
  (C7_invalid_quality_falls_back (str "text/html") (str "q=blah")
    (by decide) (by decide)).1

/-- C8 counterexample: in the `accept` package parser a param written `Q=0.7`
does NOT set the part's quality as `q=0.7` does — the quality stays at its
default 1.0 — and it IS retained as an ordinary param. -/
theorem C8_counterexample :
    (handlePartWithParams (str "text/html") [str "Q=0.7"]).Quality = 1 ∧
    (handlePartWithParams (str "text/html") [str "q=0.7"]).Quality = mkRat 7 10 ∧
    (handlePartWithParams (str "text/html") [str "Q=0.7"]).Quality ≠
      (handlePartWithParams (str "text/html") [str "q=0.7"]).Quality ∧
    (handlePartWithParams (str "text/html") [str "Q=0.7"]).Params =
      [⟨str "Q", str "0.7"⟩] :=
  ⟨by decide, by decide, by decide, by decide⟩

/-- C8 (amended): the `accept` package parser compares the quality key
case-sensitively (after trimming): lowercase `q=x` sets the quality and is
not retained, while `Q=x` leaves the quality at its default and is retained
as an ordinary param; only the legacy `Accept.Parse` parser of the
`negotiator` package, which lower-cases every accept-param first, treats
`Q=x` exactly like `q=x`. -/
theorem C8_quality_key_case :
    (handlePartWithParams (str "text/html") [str "q=0.7"]).Quality = mkRat 7 10 ∧
    (handlePartWithParams (str "text/html") [str "q=0.7"]).Params = [] ∧
    (handlePartWithParams (str "text/html") [str "Q=0.7"]).Quality = DefaultQuality ∧
    (handlePartWithParams (str "text/html") [str "Q=0.7"]).Params =
      [⟨str "Q", str "0.7"⟩] ∧
    legacy.handleMediaRangeWithAcceptParams (str "text/html") [str "Q=0.7"] =
      { Value := str "text/html", Weight := mkRat 7 10 } ∧
    legacy.handleMediaRangeWithAcceptParams (str "text/html") [str "q=0.7"] =
      { Value := str "text/html", Weight := mkRat 7 10 } :=
  ⟨by decide, by decide, by decide, by decide, by decide, by decide⟩

/-- C9 counterexample (negation of the claim's cap): the provider-unwrapping
loop of `dereferenceDataProviders` is NOT capped at any recursion depth — for
every candidate cap there is a provider chain the loop follows for more
invocations. -/
theorem C9_counterexample :
    ¬ ∃ cap : Nat, ∀ (d : GoData) (lang : Str), derefDepth d lang ≤ cap := by
  rintro ⟨cap, h⟩
  have h2 := h (providerChain (cap + 1)) []
  rw [derefDepth_providerChain] at h2
  omega

/-- C9 (amended): once an offer is chosen its data is resolved by repeatedly
invoking zero-argument or language-parameterized providers until a
non-provider value results — which, in this well-founded model of provider
chains, happens for every chain — but the loop is NOT capped at any recursion
depth: the number of provider invocations is unbounded, so a Go provider
chain that never yields a non-provider value (expressible there through a
self-returning closure, not representable in this model) would make the loop
diverge. -/
theorem C9_dereference_uncapped :
    (∀ (d : GoData) (lang : Str),
       (dereferenceDataProviders d lang).isProvider = false) ∧
    (∀ cap : Nat, cap < derefDepth (providerChain (cap + 1)) []) := by
  constructor
  · intro d lang
    induction d with
    | plain v => rfl
    | basic f ih => rw [dereferenceDataProviders]; exact ih ()
    | langFn f ih => rw [dereferenceDataProviders]; exact ih lang
  · intro cap
    rw [derefDepth_providerChain]
    omega

/-- C10: wildcard normalisation: `setDefaultWildcards` always equals the
element-wise normalisation (so length and order are preserved), the
normalisation of a single offer replaces only a blank `MediaType` by `*/*`
and a blank `Language` by `*` while leaving `Template`, `Data` and every
non-blank field unchanged; when no offer has a blank field the input list is
returned as-is, and when some offer does, the result is the fresh list of
modified copies built by `doSetDefaultWildcards` (the caller's list itself is
never modified — all functions here are pure). -/
theorem C10_set_default_wildcards (offers : List Offer) :
    setDefaultWildcards offers = offers.map fixOfferWildcards ∧
    (setDefaultWildcards offers).length = offers.length ∧
    (∀ o : Offer,
      (fixOfferWildcards o).Template = o.Template ∧
      (fixOfferWildcards o).Data = o.Data ∧
      (o.MediaType ≠ [] → (fixOfferWildcards o).MediaType = o.MediaType) ∧
      (o.MediaType = [] → (fixOfferWildcards o).MediaType = str "*/*") ∧
      (o.Language ≠ [] → (fixOfferWildcards o).Language = o.Language) ∧
      (o.Language = [] → (fixOfferWildcards o).Language = str "*")) ∧
    ((∀ o ∈ offers, o.MediaType ≠ [] ∧ o.Language ≠ []) →
      setDefaultWildcards offers = offers) ∧
    ((∃ o ∈ offers, o.MediaType = [] ∨ o.Language = []) →
      setDefaultWildcards offers = doSetDefaultWildcards offers) := by
  have hfix : ∀ o : Offer, o.MediaType ≠ [] → o.Language ≠ [] →
      fixOfferWildcards o = o := by
    intro o hm hl
    unfold fixOfferWildcards
    rw [if_neg (by simpa using hm), if_neg (by simpa using hl)]
  have hmain : setDefaultWildcards offers = offers.map fixOfferWildcards := by
    unfold setDefaultWildcards doSetDefaultWildcards
    by_cases h : (offers.any fun o => o.MediaType == [] || o.Language == []) = true
    · rw [if_pos h]
    · rw [if_neg h]
      rw [List.any_eq_true] at h
      push_neg at h
      symm
      apply map_id_of_mem
      intro o ho
      have hcond := h o ho
      simp only [ne_eq, Bool.or_eq_true, beq_iff_eq, not_or] at hcond
      exact hfix o hcond.1 hcond.2
  refine ⟨hmain, ?_, ?_, ?_, ?_⟩
  · rw [hmain, List.length_map]
  · intro o
    refine ⟨rfl, rfl, ?_, ?_, ?_, ?_⟩
    · intro hm
      unfold fixOfferWildcards
      simp [if_neg, hm]
    · intro hm
      unfold fixOfferWildcards
      simp [hm]
    · intro hl
      unfold fixOfferWildcards
      simp [if_neg, hl]
    · intro hl
      unfold fixOfferWildcards
      simp [hl]
  · intro hall
    unfold setDefaultWildcards
    rw [if_neg]
    rw [List.any_eq_true]
    push_neg
    intro o ho
    have := hall o ho
    simp [Bool.or_eq_true, beq_iff_eq, this.1, this.2]
  · intro ⟨o, ho, hblank⟩
    unfold setDefaultWildcards
    rw [if_pos]
    refine List.any_eq_true.mpr ⟨o, ho, ?_⟩
    cases hblank with
    | inl h => simp [h]
    | inr h => simp [h]

/-- C10 witness: a list containing a fully blank offer takes the
fresh-copies branch, and the constant-field facts at that offer. -/
theorem C10_set_default_wildcards_witness :
    setDefaultWildcards [offerBlank] = doSetDefaultWildcards [offerBlank] ∧
    (fixOfferWildcards offerBlank).Template = offerBlank.Template :=
  ⟨(C10_set_default_wildcards [offerBlank]).2.2.2.2
      ⟨offerBlank, List.mem_singleton.mpr rfl, Or.inl rfl⟩,
   ((C10_set_default_wildcards [offerBlank]).2.2.1 offerBlank).1⟩
